import Mathlib

/-!
Verification of the QueueCTL job-queue core.

This file shallowly embeds the data model and the database-mutating
operations of the QueueCTL repository (src/queue.js, src/worker.js,
src/config.js, src/schema.sql) and proves properties about them.

Modelling conventions:
* ISO-8601 UTC timestamp strings are compared lexicographically in the
  source, which is order-isomorphic to comparing the underlying instants;
  we model instants as `Nat` and `addSeconds` as addition.
* SQL `NULL`-able columns become `Option` fields.
* SQL primary-key violations and thrown JS errors become `Except.error`;
  a `better-sqlite3` transaction that throws rolls back, which we model
  by returning the unchanged database.
* Each table is a list of rows in insertion (rowid) order.
-/

set_option maxRecDepth 100000

namespace QueueCTL

/-- Job states, exactly the five values allowed by the CHECK constraint in
schema.sql. -/
inductive JState where
  | pending
  | processing
  | completed
  | failed
  | dead
deriving DecidableEq, Repr

/-- A row of the `jobs` table (schema.sql).  The field `everClaimed` is a
ghost history flag, not a database column: it records whether the atomic
claim update has ever touched this row since the row was inserted.  It is
set only by `claimUpdate` and reset at row creation; no theorem about real
columns depends on it. -/
structure Job where
  id : String
  command : String
  state : JState
  attempts : Nat
  max_retries : Nat
  created_at : Nat
  updated_at : Nat
  run_at : Option Nat
  last_error : Option String
  priority : Int
  locked_by : Option String
  lock_until : Option Nat
  everClaimed : Bool
deriving DecidableEq, Repr

/-- The deserialized DLQ payload: `JSON.stringify({id, command, max_retries,
priority})` written by processJob and parsed back by dlqRetry.  The JSON
round-trip is the identity on these four fields, so we keep the structure. -/
structure DlqPayload where
  id : String
  command : String
  max_retries : Nat
  priority : Int
deriving DecidableEq, Repr

/-- A row of the `dlq` table (schema.sql). -/
structure DlqEntry where
  id : String
  job_id : String
  payload : DlqPayload
  dead_at : Nat
deriving DecidableEq, Repr

/-- A row of the `workers` table (schema.sql). -/
structure WorkerRow where
  id : String
  pid : Nat
  started_at : Nat
  heartbeat_at : Nat
deriving DecidableEq, Repr

/-- The database: the four tables of schema.sql, each in rowid order. -/
structure DB where
  jobs : List Job
  dlq : List DlqEntry
  config : List (String × String)
  workers : List WorkerRow
deriving DecidableEq, Repr

/-- util.js `addSeconds`: shift a timestamp forward by a number of seconds. -/
def addSeconds (iso : Nat) (seconds : Nat) : Nat := iso + seconds

/-- util.js `backoff(base, attempts) = Math.pow(base, attempts)`. -/
def backoff (base : Nat) (attempts : Nat) : Nat := base ^ attempts

/-- config.js `DEFAULTS` fallback table. -/
def DEFAULTS (key : String) : Option String :=
  if key = "max_retries" then some "3"
  else if key = "backoff_base" then some "2"
  else none

/-- config.js `get(key)`: the stored value, else the default, else null. -/
def configGet (db : DB) (key : String) : Option String :=
  match db.config.find? (fun kv => kv.1 == key) with
  | some kv => some kv.2
  | none => DEFAULTS key

/-- Decimal value of a list of digit characters. -/
def digitsToNat (ds : List Char) : Nat :=
  ds.foldl (fun a c => a * 10 + (c.toNat - 48)) 0

/-- JavaScript `parseInt(s, 10)`: skip leading whitespace, read an optional
sign, then the longest prefix of decimal digits; `none` models `NaN` (no
digits found). -/
def parseIntJS (s : String) : Option Int :=
  let l := s.data.dropWhile (fun c => c.isWhitespace)
  match l with
  | '-' :: r =>
    let ds := r.takeWhile (fun c => c.isDigit)
    if ds.isEmpty then none else some (-(digitsToNat ds : Int))
  | '+' :: r =>
    let ds := r.takeWhile (fun c => c.isDigit)
    if ds.isEmpty then none else some ((digitsToNat ds : Int))
  | _ =>
    let ds := l.takeWhile (fun c => c.isDigit)
    if ds.isEmpty then none else some ((digitsToNat ds : Int))

/-- config.js `getInt(key)`: `parseInt(val ?? '0', 10)`; the `none` result
models `NaN`. -/
def getInt (db : DB) (key : String) : Option Int :=
  parseIntJS ((configGet db key).getD "0")

/-- The `run_at` field of an enqueue request as it arrives from JS: absent
(undefined or null), the empty string (falsy), or a concrete timestamp. -/
inductive RunAtField where
  | absent
  | emptyStr
  | iso (t : Nat)
deriving DecidableEq, Repr

/-- queue.js `job.run_at || null`: both absent and falsy (empty-string)
inputs are stored as NULL. -/
def storedRunAt : RunAtField → Option Nat
  | RunAtField.absent => none
  | RunAtField.emptyStr => none
  | RunAtField.iso t => some t

/-- The caller-supplied fields of queue.js `enqueue(job)`. -/
structure EnqueueReq where
  id : Option String
  command : String
  max_retries : Option Nat
  priority : Option Int
  run_at : RunAtField
deriving DecidableEq, Repr

/-- The id stored by queue.js `enqueue`: `job.id || job_<nanoid(8)>` (JS
`||`, so an empty string also falls back to the generated id). -/
def chosenId (reqId : Option String) (genId : String) : String :=
  match reqId with
  | some s => if s.isEmpty then genId else s
  | none => genId

/-- The fresh pending row inserted by queue.js `enqueue` and `dlqRetry`:
`state='pending'`, `attempts=0`, `created_at=updated_at=now`, no error, no
lease. -/
def newJobRow (id command : String) (mr : Nat) (pr : Int) (runAt : Option Nat)
    (now : Nat) : Job :=
  { id := id, command := command, state := JState.pending, attempts := 0,
    max_retries := mr, created_at := now, updated_at := now, run_at := runAt,
    last_error := none, priority := pr, locked_by := none, lock_until := none,
    everClaimed := false }

/-- queue.js `enqueue`: insert a fresh pending row.  `genId` stands for the
generated `job_<nanoid(8)>` used when `job.id` is absent or empty.
`job.max_retries ?? 3` and `job.priority ?? 0` are `getD`.  The INSERT hits
the `jobs.id` primary key, so a duplicate id is an error. -/
def enqueue (db : DB) (req : EnqueueReq) (genId : String) (now : Nat) :
    Except String (DB × String) :=
  let id := chosenId req.id genId
  if db.jobs.any (fun j => j.id == id) then
    Except.error "UNIQUE constraint failed: jobs.id"
  else
    Except.ok
      ({ db with jobs := db.jobs ++
          [newJobRow id req.command (req.max_retries.getD 3)
            (req.priority.getD 0) (storedRunAt req.run_at) now] }, id)

/-- The database after `enqueue`; an error leaves the database unchanged. -/
def enqueueDb (db : DB) (req : EnqueueReq) (genId : String) (now : Nat) : DB :=
  match enqueue db req genId now with
  | Except.ok p => p.1
  | Except.error _ => db

/-- queue.js `status()` result shape. -/
structure StatusResult where
  pending : Nat
  processing : Nat
  completed : Nat
  failed : Nat
  dead : Nat
  active_workers : Nat
  oldest_pending : Option Nat
deriving DecidableEq, Repr

/-- Denotation of `SELECT state, COUNT(*) FROM jobs GROUP BY state` at one
state, after the zero-filled map of status(). -/
def stateCount (jobs : List Job) (s : JState) : Nat :=
  (jobs.filter (fun j => j.state == s)).length

/-- Fold step computing the minimum of a list of timestamps. -/
def minStep (acc : Option Nat) (t : Nat) : Option Nat :=
  match acc with
  | none => some t
  | some b => if t < b then some t else some b

/-- Denotation of `SELECT created_at FROM jobs WHERE state='pending' ORDER BY
created_at ASC LIMIT 1`: the smallest pending created_at, if any. -/
def minCreated (jobs : List Job) : Option Nat :=
  ((jobs.filter (fun j => j.state == JState.pending)).map
      (fun j => j.created_at)).foldl minStep none

/-- queue.js `status()`: counts by state, workers whose heartbeat is within
the last 10 seconds (the code compares ISO strings with `>=` against
`now − 10s`; its extra truthiness guard on `heartbeat_at` never fires since
the column is NOT NULL), and the oldest pending created_at (the code's
`|| null` on it never fires since ISO strings are non-empty). -/
def status (db : DB) (now : Nat) : StatusResult :=
  { pending := stateCount db.jobs JState.pending
    processing := stateCount db.jobs JState.processing
    completed := stateCount db.jobs JState.completed
    failed := stateCount db.jobs JState.failed
    dead := stateCount db.jobs JState.dead
    active_workers :=
      (db.workers.filter (fun w => decide (now - 10 ≤ w.heartbeat_at))).length
    oldest_pending := minCreated db.jobs }

/-- queue.js `dlqRetry(id)`: look up the DLQ row, then in one transaction
delete it and insert a fresh pending job built from the payload
(`payload.max_retries ?? 3` and `payload.priority ?? 0` never fall back,
because processJob always serializes both fields).  The INSERT hits the
`jobs.id` primary key; a violation aborts and rolls back the whole
transaction. -/
def dlqRetry (db : DB) (dlqId : String) (now : Nat) :
    Except String (DB × String) :=
  match db.dlq.find? (fun e => e.id == dlqId) with
  | none => Except.error ("DLQ item not found: " ++ dlqId)
  | some row =>
    let p := row.payload
    if db.jobs.any (fun j => j.id == p.id) then
      Except.error "UNIQUE constraint failed: jobs.id"
    else
      Except.ok
        ({ db with
            dlq := db.dlq.filter (fun e => !(e.id == dlqId)),
            jobs := db.jobs ++
              [newJobRow p.id p.command p.max_retries p.priority none now] },
          p.id)

/-- The database after `dlqRetry`; an error rolls back to the unchanged
database. -/
def dlqRetryDb (db : DB) (dlqId : String) (now : Nat) : DB :=
  match dlqRetry db dlqId now with
  | Except.ok p => p.1
  | Except.error _ => db

/-- The claim selection predicate of worker.js `claimJob`:
state IN ('pending','failed') AND (run_at IS NULL OR run_at <= now)
AND (lock_until IS NULL OR lock_until <= now). -/
def runnable (j : Job) (now : Nat) : Bool :=
  (j.state == JState.pending || j.state == JState.failed) &&
  (match j.run_at with
    | none => true
    | some t => decide (t ≤ now)) &&
  (match j.lock_until with
    | none => true
    | some t => decide (t ≤ now))

/-- The strict order `priority DESC, created_at ASC` of the claim subselect:
`a` sorts strictly before `b`. -/
def betterJob (a b : Job) : Bool :=
  decide (b.priority < a.priority) ||
  (a.priority == b.priority && decide (a.created_at < b.created_at))

/-- Fold step keeping the best runnable row seen so far in the claim
order. -/
def pickBetter (now : Nat) (acc : Option Job) (j : Job) : Option Job :=
  if runnable j now then
    match acc with
    | none => some j
    | some b => if betterJob j b then some j else some b
  else acc

/-- The subselect of claimJob: the first row in `priority DESC, created_at
ASC` order among the runnable rows (ties resolved toward the
earlier-inserted row), or none. -/
def selectRunnable (jobs : List Job) (now : Nat) : Option Job :=
  jobs.foldl (pickBetter now) none

/-- The SET clause of the claim UPDATE in worker.js `claimJob`. -/
def claimUpdate (j : Job) (w : String) (now : Nat) : Job :=
  { j with state := JState.processing, locked_by := some w,
           lock_until := some (addSeconds now 60),
           attempts := j.attempts + 1, updated_at := now,
           everClaimed := true }

/-- Fold step keeping the row with the largest `updated_at` seen so far. -/
def maxUpdStep (acc : Option Job) (j : Job) : Option Job :=
  match acc with
  | none => some j
  | some b => if decide (b.updated_at < j.updated_at) then some j else some b

/-- The re-read of worker.js `claimJob`: `SELECT * FROM jobs WHERE locked_by
= ? AND state='processing' ORDER BY updated_at DESC LIMIT 1` (ties resolved
toward the earlier-inserted row). -/
def rereadClaimed (jobs : List Job) (w : String) : Option Job :=
  (jobs.filter
      (fun j => j.locked_by == some w &&
        j.state == JState.processing)).foldl maxUpdStep none

/-- worker.js `claimJob`: one atomic UPDATE of the row picked by the
subselect (the UPDATE's WHERE clause matches on that row's id), then the
re-read; returns the unchanged database and null when no row is eligible
(`upd.changes === 0`). -/
def claimJob (db : DB) (w : String) (now : Nat) : DB × Option Job :=
  match selectRunnable db.jobs now with
  | none => (db, none)
  | some sel =>
    let jobs2 := db.jobs.map
      (fun j => if j.id == sel.id then claimUpdate j w now else j)
    ({ db with jobs := jobs2 }, rereadClaimed jobs2 w)

/-- worker.js `refreshLock`: `UPDATE jobs SET lock_until = now + 60s WHERE
id = ? AND locked_by = ?`. -/
def refreshLock (db : DB) (jobId : String) (w : String) (now : Nat) : DB :=
  { db with jobs := db.jobs.map (fun j =>
      if j.id == jobId && j.locked_by == some w then
        { j with lock_until := some (addSeconds now 60) }
      else j) }

/-- The outcome of worker.js `executeCommand`: exit ok, exit code, the
thrown error message, and captured stderr. -/
structure ExecResult where
  ok : Bool
  code : Int
  error : String
  stderr : String
deriving DecidableEq, Repr

/-- JavaScript `a || b` on strings: `b` when `a` is the empty string. -/
def jsOrStr (a b : String) : String := if a = "" then b else a

/-- The diagnostic string written by processJob on failure:
exit=code followed by the first 200 chars of `res.error || res.stderr || ''`. -/
def lastError (res : ExecResult) : String :=
  "exit=" ++ toString res.code ++ ": " ++
    (jsOrStr res.error (jsOrStr res.stderr "")).take 200

/-- worker.js `job.attempts || 1` read in processJob (attempts was
incremented at claim time, so it is only 0 on a never-claimed row). -/
def attemptsNowOf (j : Job) : Nat := if j.attempts = 0 then 1 else j.attempts

/-- The SET clause of the success UPDATE in processJob: `state='completed',
updated_at=now, locked_by=NULL, lock_until=NULL, last_error=NULL`. -/
def completeUpdate (now : Nat) (j : Job) : Job :=
  { j with state := JState.completed, updated_at := now, locked_by := none,
           lock_until := none, last_error := none }

/-- The SET clause of the retry UPDATE in processJob: `state='failed',
attempts=attemptsNow, run_at=runAt, updated_at=now, last_error=err,
locked_by=NULL, lock_until=runAt`. -/
def retryUpdate (attemptsNow runAt now : Nat) (err : String) (j : Job) : Job :=
  { j with state := JState.failed, attempts := attemptsNow,
           run_at := some runAt, updated_at := now, last_error := some err,
           locked_by := none, lock_until := some runAt }

/-- The SET clause of the dead UPDATE in processJob: `state='dead',
updated_at=now, locked_by=NULL, lock_until=NULL, last_error=err`. -/
def deadUpdate (now : Nat) (err : String) (j : Job) : Job :=
  { j with state := JState.dead, updated_at := now, locked_by := none,
           lock_until := none, last_error := some err }

/-- The DLQ row inserted by processJob: `{id="dlq_"+job.id, job_id=job.id,
payload=JSON.stringify({id, command, max_retries, priority}), dead_at}`. -/
def dlqRowOf (job : Job) (deadAt : Nat) : DlqEntry :=
  { id := "dlq_" ++ job.id, job_id := job.id,
    payload := { id := job.id, command := job.command,
                 max_retries := job.max_retries, priority := job.priority },
    dead_at := deadAt }

/-- The outcome-resolution tail of worker.js `processJob`, acting on the
claimed row `job`: success completes the row; a failure below the retry
budget schedules a retry (`lock_until = run_at` hides it until due); an
exhausted failure inserts the DLQ row and marks the job dead inside one
transaction (the code reads the clock again for `deadAt`; we identify the
two reads).  The DLQ INSERT hits the `dlq.id` primary key; a violation
makes the transaction roll back to the unchanged database. -/
def resolveOutcome (db : DB) (job : Job) (base : Nat) (res : ExecResult)
    (now : Nat) : DB :=
  let maxRetries := job.max_retries
  let attemptsNow := attemptsNowOf job
  if res.ok then
    { db with jobs := db.jobs.map (fun j =>
        if j.id == job.id then completeUpdate now j else j) }
  else if attemptsNow < maxRetries then
    let delay := backoff base attemptsNow
    let runAt := addSeconds now delay
    { db with jobs := db.jobs.map (fun j =>
        if j.id == job.id then
          retryUpdate attemptsNow runAt now (lastError res) j
        else j) }
  else
    if db.dlq.any (fun e => e.id == "dlq_" ++ job.id) then db
    else
      { db with
          dlq := db.dlq ++ [dlqRowOf job now],
          jobs := db.jobs.map (fun j =>
            if j.id == job.id then deadUpdate now (lastError res) j else j) }

/-- A freshly created database: empty tables (schema bootstrap). -/
def initDB : DB := { jobs := [], dlq := [], config := [], workers := [] }

/-- One database transition of the queue core: enqueue, atomic claim,
outcome resolution of a currently processing row, lock refresh, or DLQ
retry.  Timestamps and identifiers are arbitrary parameters of each step. -/
inductive Step : DB → DB → Prop where
  | enq (db : DB) (req : EnqueueReq) (genId : String) (now : Nat) :
      Step db (enqueueDb db req genId now)
  | claim (db : DB) (w : String) (now : Nat) :
      Step db (claimJob db w now).1
  | resolve (db : DB) (job : Job) (base : Nat) (res : ExecResult) (now : Nat)
      (hmem : job ∈ db.jobs) (hst : job.state = JState.processing) :
      Step db (resolveOutcome db job base res now)
  | refresh (db : DB) (jobId w : String) (now : Nat) :
      Step db (refreshLock db jobId w now)
  | dlqretry (db : DB) (dlqId : String) (now : Nat) :
      Step db (dlqRetryDb db dlqId now)

/-- Database states reachable from a fresh database by the queue core. -/
def Reachable (db : DB) : Prop := Relation.ReflTransGen Step initDB db

/-- The columns never modified after row creation: id, command, priority,
max_retries, created_at. -/
def frameProj (j : Job) : String × String × Int × Nat × Nat :=
  (j.id, j.command, j.priority, j.max_retries, j.created_at)

/-- Per-row invariant maintained by every operation of the queue core:
lock discipline per state, the attempts budget, and the correspondence
between `attempts = 0` and the row never having been claimed. -/
def jobOK (j : Job) : Prop :=
  (j.state = JState.processing →
      j.locked_by ≠ none ∧ j.lock_until ≠ none ∧ 1 ≤ j.attempts) ∧
  ((j.state = JState.pending ∨ j.state = JState.completed ∨
      j.state = JState.dead) → j.locked_by = none ∧ j.lock_until = none) ∧
  (j.state = JState.failed → j.locked_by = none) ∧
  j.attempts ≤ j.max_retries + 1 ∧
  (j.attempts = 0 ↔ j.everClaimed = false) ∧
  (j.state = JState.pending → j.attempts = 0) ∧
  (j.state = JState.failed → j.attempts < j.max_retries)

/-- Database invariant: primary-key uniqueness of job ids plus the per-row
invariant. -/
def Inv (db : DB) : Prop :=
  (db.jobs.map Job.id).Nodup ∧ ∀ j ∈ db.jobs, jobOK j

/-! Concrete executions used by counterexamples and witnesses.  `exDb1` …
`exDb5` replay the retry-then-DLQ scenario of the spec: enqueue a job with
`max_retries = 2` whose command exits non-zero, run it to the DLQ. -/

/-- Enqueue request of the concrete scenario. -/
def exReq : EnqueueReq :=
  { id := some "t2", command := "false", max_retries := some 2,
    priority := none, run_at := RunAtField.absent }

/-- A failing execution result (exit code 1). -/
def exRes : ExecResult :=
  { ok := false, code := 1, error := "Command failed", stderr := "boom" }

/-- The scenario database after the enqueue at time 0. -/
def exDb1 : DB := enqueueDb initDB exReq "gen1" 0

/-- The scenario database after worker w claims at time 0. -/
def exDb2 : DB := (claimJob exDb1 "w" 0).1

/-- The row claimed at time 0, as re-read by the worker. -/
def exJob1 : Job :=
  { id := "t2", command := "false", state := JState.processing,
    attempts := 1, max_retries := 2, created_at := 0, updated_at := 0,
    run_at := none, last_error := none, priority := 0,
    locked_by := some "w", lock_until := some 60, everClaimed := true }

/-- The scenario database after the first failure is resolved at time 1:
the job is rescheduled with `run_at = lock_until = 3`. -/
def exDb3 : DB := resolveOutcome exDb2 exJob1 2 exRes 1

/-- The failed row of `exDb3`. -/
def exFailedRow : Job :=
  { id := "t2", command := "false", state := JState.failed,
    attempts := 1, max_retries := 2, created_at := 0, updated_at := 1,
    run_at := some 3, last_error := some "exit=1: Command failed",
    priority := 0, locked_by := none, lock_until := some 3,
    everClaimed := true }

/-- The scenario database after worker w re-claims at time 10. -/
def exDb4 : DB := (claimJob exDb3 "w" 10).1

/-- The row claimed at time 10 (second attempt). -/
def exJob2 : Job :=
  { id := "t2", command := "false", state := JState.processing,
    attempts := 2, max_retries := 2, created_at := 0, updated_at := 10,
    run_at := some 3, last_error := some "exit=1: Command failed",
    priority := 0, locked_by := some "w", lock_until := some 70,
    everClaimed := true }

/-- The scenario database after the second failure is resolved at time 11:
the job is dead and the DLQ holds `dlq_t2`. -/
def exDb5 : DB := resolveOutcome exDb4 exJob2 2 exRes 11

/-- A pending row eligible for claiming, used by the C1 counterexample. -/
def cexA : Job :=
  { id := "a", command := "y", state := JState.pending, attempts := 0,
    max_retries := 3, created_at := 0, updated_at := 0, run_at := none,
    last_error := none, priority := 0, locked_by := none,
    lock_until := none, everClaimed := false }

/-- A processing row already locked by worker w with a later `updated_at`,
used by the C1 counterexample. -/
def cexB : Job :=
  { id := "b", command := "x", state := JState.processing, attempts := 1,
    max_retries := 3, created_at := 0, updated_at := 100, run_at := none,
    last_error := none, priority := 0, locked_by := some "w",
    lock_until := some 160, everClaimed := true }

/-- A well-formed database in which worker w already holds a processing row
whose `updated_at` lies after the claim instant. -/
def cexDB : DB := { jobs := [cexB, cexA], dlq := [], config := [], workers := [] }

/-- A database whose config stores a value that does not parse as an
integer, for the C7 counterexample. -/
def cfgDB : DB := { initDB with config := [("backoff_base", "abc")] }

/-- A database with one worker whose last heartbeat was at time 0, for the
C8 counterexample. -/
def wDB : DB :=
  { initDB with workers :=
      [{ id := "wk", pid := 1, started_at := 0, heartbeat_at := 0 }] }

/-- An enqueue request whose `run_at` is the empty string (falsy), for the
C10 witness. -/
def c10req : EnqueueReq :=
  { id := some "t1", command := "echo ok", max_retries := none,
    priority := none, run_at := RunAtField.emptyStr }

/-- The database produced by the C10 witness enqueue. -/
def c10db : DB := enqueueDb initDB c10req "gen2" 0

/-- The row inserted by the C10 witness enqueue. -/
def c10row : Job := newJobRow "t1" "echo ok" 3 0 none 0

/-- The pending row of `exDb1` as stored by the scenario enqueue. -/
def exPendingRow : Job :=
  { id := "t2", command := "false", state := JState.pending, attempts := 0,
    max_retries := 2, created_at := 0, updated_at := 0, run_at := none,
    last_error := none, priority := 0, locked_by := none, lock_until := none,
    everClaimed := false }

/-- The DLQ row of `exDb5`. -/
def exDlqEntry : DlqEntry :=
  { id := "dlq_t2", job_id := "t2",
    payload := { id := "t2", command := "false", max_retries := 2,
                 priority := 0 },
    dead_at := 11 }

/-- The dead row of `exDb5`. -/
def exDeadRow : Job :=
  { id := "t2", command := "false", state := JState.dead, attempts := 2,
    max_retries := 2, created_at := 0, updated_at := 11, run_at := some 3,
    last_error := some "exit=1: Command failed", priority := 0,
    locked_by := none, lock_until := none, everClaimed := true }

/-! Basic facts about the claim ordering and the fold helpers. -/

lemma betterJob_iff (a b : Job) :
    betterJob a b = true ↔
      (b.priority < a.priority ∨
        (a.priority = b.priority ∧ a.created_at < b.created_at)) := by
  simp [betterJob]

lemma betterJob_irrefl (a : Job) : betterJob a a = false := by
  rw [← Bool.not_eq_true, betterJob_iff]
  omega

lemma betterJob_trans {a b c : Job} (h1 : betterJob a b = true)
    (h2 : betterJob b c = true) : betterJob a c = true := by
  rw [betterJob_iff] at h1 h2 ⊢
  omega

lemma betterJob_neg_trans {a b c : Job} (h1 : betterJob a b = false)
    (h2 : betterJob b c = false) : betterJob a c = false := by
  rw [← Bool.not_eq_true, betterJob_iff] at h1 h2 ⊢
  omega

lemma pickBetter_cases (now : Nat) (acc : Option Job) (j : Job) :
    (runnable j now = false ∧ pickBetter now acc j = acc) ∨
    (runnable j now = true ∧ acc = none ∧ pickBetter now acc j = some j) ∨
    (runnable j now = true ∧ ∃ b0, acc = some b0 ∧
      ((betterJob j b0 = true ∧ pickBetter now acc j = some j) ∨
       (betterJob j b0 = false ∧ pickBetter now acc j = some b0))) := by
  by_cases hj : runnable j now
  · cases acc with
    | none => exact Or.inr (Or.inl ⟨hj, rfl, by simp [pickBetter, hj]⟩)
    | some b0 =>
      refine Or.inr (Or.inr ⟨hj, b0, rfl, ?_⟩)
      by_cases hbj : betterJob j b0 = true
      · exact Or.inl ⟨hbj, by simp [pickBetter, hj, hbj]⟩
      · exact Or.inr ⟨Bool.not_eq_true _ ▸ hbj, by simp [pickBetter, hj, hbj]⟩
  · exact Or.inl ⟨Bool.not_eq_true _ ▸ hj, by simp [pickBetter, hj]⟩

lemma foldl_pickBetter_spec (now : Nat) :
    ∀ (l : List Job) (acc : Option Job) (sel : Job),
      l.foldl (pickBetter now) acc = some sel →
      (∀ b, acc = some b → runnable b now = true) →
      ((sel ∈ l ∨ acc = some sel) ∧ runnable sel now = true ∧
       (∀ j ∈ l, runnable j now = true → betterJob j sel = false) ∧
       (∀ b, acc = some b → betterJob b sel = false)) := by
  intro l
  induction l with
  | nil =>
    intro acc sel hfold hacc
    simp only [List.foldl_nil] at hfold
    refine ⟨Or.inr hfold, hacc _ hfold, by simp, ?_⟩
    intro b hb
    rw [hfold] at hb
    cases hb
    exact betterJob_irrefl sel
  | cons j t ih =>
    intro acc sel hfold hacc
    simp only [List.foldl_cons] at hfold
    rcases pickBetter_cases now acc j with
      ⟨hjf, hstep⟩ | ⟨hjt, haccn, hstep⟩ | ⟨hjt, b0, hacc0, hsub⟩
    · rw [hstep] at hfold
      obtain ⟨hm, hr, ho, hi⟩ := ih acc sel hfold hacc
      refine ⟨?_, hr, ?_, hi⟩
      · exact hm.imp (List.mem_cons_of_mem _) id
      · intro x hx hxr
        rcases List.mem_cons.mp hx with hxe | hxt
        · subst hxe; rw [hjf] at hxr; cases hxr
        · exact ho x hxt hxr
    · rw [hstep] at hfold
      obtain ⟨hm, hr, ho, hi⟩ := ih (some j) sel hfold
        (by intro b hb; cases hb; exact hjt)
      have hij : betterJob j sel = false := hi j rfl
      refine ⟨?_, hr, ?_, ?_⟩
      · rcases hm with hm | hm
        · exact Or.inl (List.mem_cons_of_mem _ hm)
        · obtain rfl : j = sel := Option.some.inj hm
          exact Or.inl (List.mem_cons_self _ _)
      · intro x hx hxr
        rcases List.mem_cons.mp hx with hxe | hxt
        · subst hxe; exact hij
        · exact ho x hxt hxr
      · intro b hb
        rw [haccn] at hb
        cases hb
    · rcases hsub with ⟨hbj, hstep⟩ | ⟨hbj, hstep⟩
      · rw [hstep] at hfold
        obtain ⟨hm, hr, ho, hi⟩ := ih (some j) sel hfold
          (by intro b hb; cases hb; exact hjt)
        have hij : betterJob j sel = false := hi j rfl
        refine ⟨?_, hr, ?_, ?_⟩
        · rcases hm with hm | hm
          · exact Or.inl (List.mem_cons_of_mem _ hm)
          · obtain rfl : j = sel := Option.some.inj hm
            exact Or.inl (List.mem_cons_self _ _)
        · intro x hx hxr
          rcases List.mem_cons.mp hx with hxe | hxt
          · subst hxe; exact hij
          · exact ho x hxt hxr
        · intro b hb
          rw [hacc0] at hb
          obtain rfl : b0 = b := Option.some.inj hb
          by_contra hbs
          rw [Bool.not_eq_false] at hbs
          have := betterJob_trans hbj hbs
          rw [hij] at this
          cases this
      · rw [hstep] at hfold
        obtain ⟨hm, hr, ho, hi⟩ := ih (some b0) sel hfold
          (by intro b hb; cases hb; exact hacc _ hacc0)
        have hib0 : betterJob b0 sel = false := hi b0 rfl
        refine ⟨?_, hr, ?_, ?_⟩
        · rcases hm with hm | hm
          · exact Or.inl (List.mem_cons_of_mem _ hm)
          · obtain rfl : b0 = sel := Option.some.inj hm
            exact Or.inr hacc0
        · intro x hx hxr
          rcases List.mem_cons.mp hx with hxe | hxt
          · subst hxe; exact betterJob_neg_trans hbj hib0
          · exact ho x hxt hxr
        · intro b hb
          rw [hacc0] at hb
          obtain rfl : b0 = b := Option.some.inj hb
          exact hib0

lemma selectRunnable_spec {l : List Job} {now : Nat} {sel : Job}
    (h : selectRunnable l now = some sel) :
    sel ∈ l ∧ runnable sel now = true ∧
      ∀ j ∈ l, runnable j now = true → betterJob j sel = false := by
  obtain ⟨hmem, hrun, hopt, _⟩ :=
    foldl_pickBetter_spec now l none sel h (by intro b hb; cases hb)
  refine ⟨?_, hrun, hopt⟩
  rcases hmem with hm | hm
  · exact hm
  · cases hm

lemma foldl_pickBetter_none (now : Nat) :
    ∀ (l : List Job) (acc : Option Job),
      l.foldl (pickBetter now) acc = none →
      acc = none ∧ ∀ j ∈ l, runnable j now = false := by
  intro l
  induction l with
  | nil => intro acc h; simpa using h
  | cons j t ih =>
    intro acc h
    simp only [List.foldl_cons] at h
    obtain ⟨hstep, ht⟩ := ih _ h
    rcases pickBetter_cases now acc j with
      ⟨hjf, hs⟩ | ⟨hjt, haccn, hs⟩ | ⟨hjt, b0, hacc0, hsub⟩
    · rw [hs] at hstep
      refine ⟨hstep, ?_⟩
      intro x hx
      rcases List.mem_cons.mp hx with hxe | hxt
      · subst hxe; exact hjf
      · exact ht x hxt
    · rw [hs] at hstep
      cases hstep
    · rcases hsub with ⟨_, hs⟩ | ⟨_, hs⟩ <;> rw [hs] at hstep <;> cases hstep

lemma foldl_pickBetter_skip (now : Nat) :
    ∀ (l : List Job) (acc : Option Job),
      (∀ j ∈ l, runnable j now = false) →
      l.foldl (pickBetter now) acc = acc := by
  intro l
  induction l with
  | nil => intro acc _; rfl
  | cons j t ih =>
    intro acc h
    simp only [List.foldl_cons]
    have hj : runnable j now = false := h j (List.mem_cons_self _ _)
    have hstep : pickBetter now acc j = acc := by
      unfold pickBetter
      simp [hj]
    rw [hstep]
    exact ih acc (fun x hx => h x (List.mem_cons_of_mem _ hx))

lemma selectRunnable_eq_none {l : List Job} {now : Nat} :
    selectRunnable l now = none ↔ ∀ j ∈ l, runnable j now = false := by
  constructor
  · intro h
    exact (foldl_pickBetter_none now l none h).2
  · intro h
    exact foldl_pickBetter_skip now l none h

lemma foldl_maxUpd_eq (x : Job) :
    ∀ (l : List Job) (acc : Option Job),
      (x ∈ l ∨ acc = some x) →
      (∀ y ∈ l, y = x ∨ y.updated_at < x.updated_at) →
      (∀ b, acc = some b → b = x ∨ b.updated_at < x.updated_at) →
      l.foldl maxUpdStep acc = some x := by
  intro l
  induction l with
  | nil =>
    intro acc hin _ _
    rcases hin with hin | hin
    · cases hin
    · simpa using hin
  | cons j t ih =>
    intro acc hin hdom hacc
    simp only [List.foldl_cons]
    have hj : j = x ∨ j.updated_at < x.updated_at := hdom j (List.mem_cons_self _ _)
    have hstep : ∀ b, maxUpdStep acc j = some b →
        b = x ∨ b.updated_at < x.updated_at := by
      intro b hb
      unfold maxUpdStep at hb
      cases hha : acc with
      | none =>
        rw [hha] at hb
        cases hb
        exact hj
      | some b0 =>
        rw [hha] at hb
        simp only at hb
        by_cases hlt : b0.updated_at < j.updated_at
        · rw [if_pos (decide_eq_true hlt)] at hb
          cases hb
          exact hj
        · rw [if_neg (by simpa using hlt)] at hb
          cases hb
          exact hacc _ hha
    apply ih (maxUpdStep acc j) ?_ (fun y hy => hdom y (List.mem_cons_of_mem _ hy)) hstep
    rcases hin with hin | hin
    · rcases List.mem_cons.mp hin with hxe | hxt
      · subst hxe
        right
        cases hha : acc with
        | none => simp [maxUpdStep]
        | some b0 =>
          simp only [maxUpdStep]
          rcases hacc b0 hha with hb0 | hb0
          · subst hb0
            simp
          · rw [if_pos (decide_eq_true hb0)]
      · exact Or.inl hxt
    · right
      rw [hin]
      simp only [maxUpdStep]
      rcases hj with hj | hj
      · subst hj
        simp
      · rw [if_neg (by simpa using not_lt.mpr (le_of_lt hj))]

lemma foldl_min_none :
    ∀ (l : List Nat) (acc : Option Nat),
      l.foldl minStep acc = none → acc = none ∧ l = [] := by
  intro l
  induction l with
  | nil => intro acc h; exact ⟨h, rfl⟩
  | cons t ts ih =>
    intro acc h
    simp only [List.foldl_cons] at h
    obtain ⟨hstep, _⟩ := ih _ h
    unfold minStep at hstep
    cases hha : acc with
    | none => rw [hha] at hstep; cases hstep
    | some b =>
      rw [hha] at hstep
      simp only at hstep
      by_cases hlt : t < b
      · rw [if_pos hlt] at hstep; cases hstep
      · rw [if_neg hlt] at hstep; cases hstep

lemma minStep_isSome (acc : Option Nat) (y : Nat) :
    ∃ b, minStep acc y = some b := by
  unfold minStep
  cases acc with
  | none => exact ⟨y, rfl⟩
  | some b0 =>
    by_cases hlt : y < b0
    · exact ⟨y, by simp [hlt]⟩
    · exact ⟨b0, by simp [hlt]⟩

lemma foldl_min_some :
    ∀ (l : List Nat) (acc : Option Nat) (t : Nat),
      l.foldl minStep acc = some t →
      ((t ∈ l ∨ acc = some t) ∧ (∀ y ∈ l, t ≤ y) ∧
        (∀ b, acc = some b → t ≤ b)) := by
  intro l
  induction l with
  | nil =>
    intro acc t h
    simp only [List.foldl_nil] at h
    exact ⟨Or.inr h, by simp, fun b hb => by rw [h] at hb; cases hb; rfl⟩
  | cons y ys ih =>
    intro acc t h
    simp only [List.foldl_cons] at h
    obtain ⟨hm, hall, hacc2⟩ := ih _ t h
    have hstep : ∀ b, minStep acc y = some b →
        b ≤ y ∧ ∀ c, acc = some c → b ≤ c := by
      intro b hb
      unfold minStep at hb
      cases hha : acc with
      | none =>
        rw [hha] at hb
        cases hb
        exact ⟨le_refl _, fun c hc => by cases hc⟩
      | some b0 =>
        rw [hha] at hb
        simp only at hb
        by_cases hlt : y < b0
        · rw [if_pos hlt] at hb
          cases hb
          exact ⟨le_refl _, fun c hc => by cases hc; exact le_of_lt hlt⟩
        · rw [if_neg hlt] at hb
          cases hb
          exact ⟨le_of_not_lt hlt, fun c hc => by cases hc; rfl⟩
    obtain ⟨b1, hm2⟩ := minStep_isSome acc y
    have hb1 := hstep b1 hm2
    have htb1 : t ≤ b1 := hacc2 b1 hm2
    constructor
    · rcases hm with hm | hm
      · exact Or.inl (List.mem_cons_of_mem _ hm)
      · unfold minStep at hm
        cases hha : acc with
        | none =>
          rw [hha] at hm
          cases hm
          exact Or.inl (List.mem_cons_self _ _)
        | some b0 =>
          rw [hha] at hm
          simp only at hm
          by_cases hlt : y < b0
          · rw [if_pos hlt] at hm
            cases hm
            exact Or.inl (List.mem_cons_self _ _)
          · rw [if_neg hlt] at hm
            cases hm
            exact Or.inr rfl
    refine ⟨?_, ?_⟩
    · intro z hz
      rcases List.mem_cons.mp hz with hze | hzt
      · subst hze
        exact le_trans htb1 hb1.1
      · exact hall z hzt
    · intro b hb
      exact le_trans htb1 (hb1.2 b hb)

lemma eq_of_mem_of_id_eq {l : List Job} (h : (l.map Job.id).Nodup)
    {a b : Job} (ha : a ∈ l) (hb : b ∈ l) (hid : a.id = b.id) : a = b :=
  List.inj_on_of_nodup_map h ha hb hid

/-! Preservation of the invariant by each operation. -/

lemma runnable_state {j : Job} {now : Nat} (h : runnable j now = true) :
    j.state = JState.pending ∨ j.state = JState.failed := by
  unfold runnable at h
  simp only [Bool.and_eq_true, Bool.or_eq_true, beq_iff_eq] at h
  exact h.1.1

lemma map_guarded_id (l : List Job) (g : Job → Bool) (f : Job → Job)
    (hfid : ∀ j, (f j).id = j.id) :
    (l.map (fun j => if g j then f j else j)).map Job.id = l.map Job.id := by
  rw [List.map_map]
  apply List.map_congr_left
  intro j _
  by_cases hg : g j = true <;> simp [Function.comp, hg, hfid]

lemma map_frameProj_guarded (l : List Job) (g : Job → Bool) (f : Job → Job)
    (hf : ∀ j, frameProj (f j) = frameProj j) :
    (l.map (fun j => if g j then f j else j)).map frameProj =
      l.map frameProj := by
  rw [List.map_map]
  apply List.map_congr_left
  intro j _
  by_cases hg : g j = true <;> simp [Function.comp, hg, hf]

lemma inv_jobs_map {l : List Job} (hnd : (l.map Job.id).Nodup)
    (hok : ∀ j ∈ l, jobOK j) (g : Job → Bool) (f : Job → Job)
    (hfid : ∀ j, (f j).id = j.id)
    (hfok : ∀ j ∈ l, g j = true → jobOK (f j)) :
    ((l.map (fun j => if g j then f j else j)).map Job.id).Nodup ∧
      ∀ j2 ∈ l.map (fun j => if g j then f j else j), jobOK j2 := by
  constructor
  · rw [map_guarded_id l g f hfid]
    exact hnd
  · intro j2 hj2
    obtain ⟨j, hjmem, hjeq⟩ := List.mem_map.mp hj2
    by_cases hg : g j = true
    · rw [if_pos hg] at hjeq
      exact hjeq ▸ hfok j hjmem hg
    · rw [if_neg hg] at hjeq
      exact hjeq ▸ hok j hjmem

lemma jobOK_newJobRow (id command : String) (mr : Nat) (pr : Int)
    (runAt : Option Nat) (now : Nat) :
    jobOK (newJobRow id command mr pr runAt now) := by
  unfold jobOK newJobRow
  refine ⟨?_, ?_, ?_, ?_, ?_, ?_, ?_⟩ <;> simp

lemma inv_append_fresh {db : DB} (hinv : Inv db) (j : Job)
    (hok : jobOK j) (hfresh : db.jobs.any (fun x => x.id == j.id) = false) :
    ((db.jobs ++ [j]).map Job.id).Nodup ∧ ∀ x ∈ db.jobs ++ [j], jobOK x := by
  obtain ⟨hnd, hall⟩ := hinv
  constructor
  · rw [List.map_append]
    rw [List.nodup_append]
    refine ⟨hnd, by simp, ?_⟩
    intro a ha
    simp only [List.map_cons, List.map_nil, List.mem_singleton]
    intro hb
    obtain ⟨x, hxmem, hxid⟩ := List.mem_map.mp ha
    rw [hb] at hxid
    have : db.jobs.any (fun y => y.id == j.id) = true :=
      List.any_eq_true.mpr ⟨x, hxmem, by rw [beq_iff_eq]; exact hxid⟩
    rw [hfresh] at this
    cases this
  · intro x hx
    rcases List.mem_append.mp hx with hx | hx
    · exact hall x hx
    · rcases List.mem_singleton.mp hx with rfl
      exact hok

lemma inv_enqueueDb (db : DB) (req : EnqueueReq) (genId : String) (now : Nat)
    (h : Inv db) : Inv (enqueueDb db req genId now) := by
  unfold enqueueDb enqueue
  by_cases hany : db.jobs.any
      (fun j => j.id == chosenId req.id genId) = true
  · simp only [hany, if_true]
    exact h
  · rw [Bool.not_eq_true] at hany
    simp only [hany, Bool.false_eq_true, if_false]
    have := inv_append_fresh h
      (newJobRow (chosenId req.id genId) req.command (req.max_retries.getD 3)
        (req.priority.getD 0) (storedRunAt req.run_at) now)
      (jobOK_newJobRow _ _ _ _ _ _) (by simpa [newJobRow] using hany)
    exact ⟨this.1, this.2⟩

lemma inv_dlqRetryDb (db : DB) (dlqId : String) (now : Nat)
    (h : Inv db) : Inv (dlqRetryDb db dlqId now) := by
  unfold dlqRetryDb dlqRetry
  cases hfind : db.dlq.find? (fun e => e.id == dlqId) with
  | none => exact h
  | some row =>
    simp only
    by_cases hany : db.jobs.any (fun j => j.id == row.payload.id) = true
    · simp only [hany, if_true]
      exact h
    · rw [Bool.not_eq_true] at hany
      simp only [hany, Bool.false_eq_true, if_false]
      have := inv_append_fresh h
        (newJobRow row.payload.id row.payload.command row.payload.max_retries
          row.payload.priority none now)
        (jobOK_newJobRow _ _ _ _ _ _) (by simpa [newJobRow] using hany)
      exact ⟨this.1, this.2⟩

lemma jobOK_claimUpdate {j : Job} {w : String} {now : Nat} (hok : jobOK j)
    (hst : j.state = JState.pending ∨ j.state = JState.failed) :
    jobOK (claimUpdate j w now) := by
  obtain ⟨h1, h2, h3, h4, h5, h6, h7⟩ := hok
  have hatt : j.attempts ≤ j.max_retries := by
    rcases hst with hst | hst
    · rw [h6 hst]
      exact Nat.zero_le _
    · exact Nat.le_of_lt (h7 hst)
  unfold claimUpdate jobOK
  refine ⟨?_, ?_, ?_, ?_, ?_, ?_, ?_⟩ <;> simp
  omega

lemma inv_claimJob (db : DB) (w : String) (now : Nat) (h : Inv db) :
    Inv (claimJob db w now).1 := by
  obtain ⟨hnd, hok⟩ := h
  unfold claimJob
  cases hsel : selectRunnable db.jobs now with
  | none => exact ⟨hnd, hok⟩
  | some sel =>
    simp only
    obtain ⟨hmem, hrun, -⟩ := selectRunnable_spec hsel
    have hres := inv_jobs_map hnd hok (fun j => j.id == sel.id)
      (fun j => claimUpdate j w now) (fun j => rfl) ?_
    · exact ⟨hres.1, hres.2⟩
    · intro j hjmem hg
      have hjid : j.id = sel.id := by simpa using hg
      have hjsel : j = sel := eq_of_mem_of_id_eq hnd hjmem hmem hjid
      subst hjsel
      exact jobOK_claimUpdate (hok j hjmem) (runnable_state hrun)

lemma inv_refreshLock (db : DB) (jobId w : String) (now : Nat) (h : Inv db) :
    Inv (refreshLock db jobId w now) := by
  obtain ⟨hnd, hok⟩ := h
  unfold refreshLock
  have hres := inv_jobs_map hnd hok
    (fun j => j.id == jobId && j.locked_by == some w)
    (fun j => { j with lock_until := some (addSeconds now 60) })
    (fun j => rfl) ?_
  · exact ⟨hres.1, hres.2⟩
  · intro j hjmem hg
    simp only [Bool.and_eq_true, beq_iff_eq] at hg
    obtain ⟨h1, h2, h3, h4, h5, h6, h7⟩ := hok j hjmem
    have hproc : j.state = JState.processing := by
      cases hstate : j.state with
      | processing => rfl
      | pending =>
        have := (h2 (Or.inl hstate)).1
        rw [this] at hg
        cases hg.2
      | completed =>
        have := (h2 (Or.inr (Or.inl hstate))).1
        rw [this] at hg
        cases hg.2
      | dead =>
        have := (h2 (Or.inr (Or.inr hstate))).1
        rw [this] at hg
        cases hg.2
      | failed =>
        have := h3 hstate
        rw [this] at hg
        cases hg.2
    unfold jobOK
    refine ⟨?_, ?_, ?_, ?_, ?_, ?_, ?_⟩ <;> simp only
    · intro _
      exact ⟨(h1 hproc).1, by simp, (h1 hproc).2.2⟩
    · intro hc
      rw [hproc] at hc
      rcases hc with hc | hc | hc <;> cases hc
    · intro hc
      rw [hproc] at hc
      cases hc
    · exact h4
    · exact h5
    · intro hc
      rw [hproc] at hc
      cases hc
    · intro hc
      rw [hproc] at hc
      cases hc

lemma attemptsNowOf_eq {j : Job} (h : 1 ≤ j.attempts) :
    attemptsNowOf j = j.attempts := by
  unfold attemptsNowOf
  rw [if_neg (by omega)]

lemma jobOK_completeUpdate {now : Nat} {j : Job} (hok : jobOK j) :
    jobOK (completeUpdate now j) := by
  obtain ⟨h1, h2, h3, h4, h5, h6, h7⟩ := hok
  refine ⟨?_, ?_, ?_, ?_, ?_, ?_, ?_⟩
  · intro hc
    simp [completeUpdate] at hc
  · intro _
    exact ⟨rfl, rfl⟩
  · intro _
    rfl
  · show j.attempts ≤ j.max_retries + 1
    exact h4
  · show j.attempts = 0 ↔ j.everClaimed = false
    exact h5
  · intro hc
    simp [completeUpdate] at hc
  · intro hc
    simp [completeUpdate] at hc

lemma jobOK_deadUpdate {now : Nat} {e : String} {j : Job} (hok : jobOK j) :
    jobOK (deadUpdate now e j) := by
  obtain ⟨h1, h2, h3, h4, h5, h6, h7⟩ := hok
  refine ⟨?_, ?_, ?_, ?_, ?_, ?_, ?_⟩
  · intro hc
    simp [deadUpdate] at hc
  · intro _
    exact ⟨rfl, rfl⟩
  · intro _
    rfl
  · show j.attempts ≤ j.max_retries + 1
    exact h4
  · show j.attempts = 0 ↔ j.everClaimed = false
    exact h5
  · intro hc
    simp [deadUpdate] at hc
  · intro hc
    simp [deadUpdate] at hc

lemma jobOK_retryUpdate {j : Job} {a r n : Nat} {e : String}
    (hec : j.everClaimed = true) (h1a : 1 ≤ a) (hlt : a < j.max_retries) :
    jobOK (retryUpdate a r n e j) := by
  refine ⟨?_, ?_, ?_, ?_, ?_, ?_, ?_⟩
  · intro hc
    simp [retryUpdate] at hc
  · intro hc
    rcases hc with hc | hc | hc <;> simp [retryUpdate] at hc
  · intro _
    rfl
  · show a ≤ j.max_retries + 1
    omega
  · show a = 0 ↔ j.everClaimed = false
    rw [hec]
    constructor
    · intro hc
      omega
    · intro hc
      cases hc
  · intro hc
    simp [retryUpdate] at hc
  · intro _
    exact hlt

lemma inv_resolveOutcome (db : DB) (job : Job) (base : Nat) (res : ExecResult)
    (now : Nat) (h : Inv db) (hmem : job ∈ db.jobs)
    (hst : job.state = JState.processing) :
    Inv (resolveOutcome db job base res now) := by
  obtain ⟨hnd, hok⟩ := h
  have hjob := hok job hmem
  have hatt : 1 ≤ job.attempts := (hjob.1 hst).2.2
  have hec : job.everClaimed = true := by
    rcases hev : job.everClaimed with _ | _
    · have := hjob.2.2.2.2.1.mpr hev
      omega
    · rfl
  unfold resolveOutcome
  by_cases hres : res.ok = true
  · simp only [hres, if_true]
    have hmain := inv_jobs_map hnd hok (fun j => j.id == job.id)
      (completeUpdate now) (fun j => rfl)
      (fun j hjmem _ => jobOK_completeUpdate (hok j hjmem))
    exact ⟨hmain.1, hmain.2⟩
  · rw [Bool.not_eq_true] at hres
    simp only [hres, Bool.false_eq_true, if_false]
    rw [attemptsNowOf_eq hatt]
    by_cases hretry : job.attempts < job.max_retries
    · rw [if_pos hretry]
      have hmain := inv_jobs_map hnd hok (fun j => j.id == job.id)
        (retryUpdate job.attempts (addSeconds now (backoff base job.attempts))
          now (lastError res)) (fun j => rfl) ?_
      · exact ⟨hmain.1, hmain.2⟩
      · intro j hjmem hg
        have hjid : j.id = job.id := by simpa using hg
        have hjj : j = job := eq_of_mem_of_id_eq hnd hjmem hmem hjid
        subst hjj
        exact jobOK_retryUpdate hec hatt hretry
    · rw [if_neg hretry]
      by_cases hdup : db.dlq.any (fun e => e.id == "dlq_" ++ job.id) = true
      · simp only [hdup, if_true]
        exact ⟨hnd, hok⟩
      · rw [Bool.not_eq_true] at hdup
        simp only [hdup, Bool.false_eq_true, if_false]
        have hmain := inv_jobs_map hnd hok (fun j => j.id == job.id)
          (deadUpdate now (lastError res)) (fun j => rfl)
          (fun j hjmem _ => jobOK_deadUpdate (hok j hjmem))
        exact ⟨hmain.1, hmain.2⟩

lemma step_inv {db db2 : DB} (h : Inv db) (hs : Step db db2) : Inv db2 := by
  cases hs with
  | enq req genId now => exact inv_enqueueDb db req genId now h
  | claim w now => exact inv_claimJob db w now h
  | resolve job base res now hmem hst =>
    exact inv_resolveOutcome db job base res now h hmem hst
  | refresh jobId w now => exact inv_refreshLock db jobId w now h
  | dlqretry dlqId now => exact inv_dlqRetryDb db dlqId now h

lemma inv_initDB : Inv initDB := by
  constructor
  · simp [initDB]
  · intro j hj
    simp [initDB] at hj

lemma reachable_inv {db : DB} (h : Reachable db) : Inv db := by
  induction h with
  | refl => exact inv_initDB
  | tail _ hstep ih => exact step_inv ih hstep

/-! Reachability of the concrete retry-then-DLQ scenario. -/

lemma reach_exDb1 : Reachable exDb1 :=
  Relation.ReflTransGen.tail Relation.ReflTransGen.refl
    (Step.enq initDB exReq "gen1" 0)

lemma reach_exDb2 : Reachable exDb2 :=
  Relation.ReflTransGen.tail reach_exDb1 (Step.claim exDb1 "w" 0)

lemma reach_exDb3 : Reachable exDb3 :=
  Relation.ReflTransGen.tail reach_exDb2
    (Step.resolve exDb2 exJob1 2 exRes 1 (by decide) rfl)

lemma reach_exDb4 : Reachable exDb4 :=
  Relation.ReflTransGen.tail reach_exDb3 (Step.claim exDb3 "w" 10)

lemma reach_exDb5 : Reachable exDb5 :=
  Relation.ReflTransGen.tail reach_exDb4
    (Step.resolve exDb4 exJob2 2 exRes 11 (by decide) rfl)

/-- Claim C3, counterexample.  The claim states that in every reachable
database state a job with state in {pending, failed, completed, dead} has
`locked_by = null` and `lock_until = null`.  This is false for `failed`:
after one failure of a claimed job with retries left, the reachable state
`exDb3` contains a failed row whose `lock_until` equals the scheduled
`run_at` (the retry UPDATE in processJob sets `lock_until = run_at`). -/
theorem failed_row_keeps_lock_until :
    Reachable exDb3 ∧ exDb3.jobs = [exFailedRow] ∧
    exFailedRow.state = JState.failed ∧ exFailedRow.lock_until = some 3 ∧
    exFailedRow.locked_by = none :=
  ⟨reach_exDb3, by decide, rfl, rfl, rfl⟩

/-- Claim C3, amended.  In every database state reachable by enqueue,
claim, outcome resolution, lock refresh and dlq_retry, every job row
satisfies: `state='processing'` implies `locked_by` and `lock_until` are
both non-null; `state` in {pending, completed, dead} implies both are
null; and `state='failed'` implies `locked_by` is null (while `lock_until`
may hold the scheduled retry time). -/
theorem reachable_lock_discipline (db : DB) (h : Reachable db) :
    ∀ j ∈ db.jobs,
      (j.state = JState.processing →
        j.locked_by ≠ none ∧ j.lock_until ≠ none) ∧
      ((j.state = JState.pending ∨ j.state = JState.completed ∨
          j.state = JState.dead) →
        j.locked_by = none ∧ j.lock_until = none) ∧
      (j.state = JState.failed → j.locked_by = none) := by
  intro j hj
  obtain ⟨-, hok⟩ := reachable_inv h
  obtain ⟨h1, h2, h3, -, -, -, -⟩ := hok j hj
  exact ⟨fun hs => ⟨(h1 hs).1, (h1 hs).2.1⟩, h2, h3⟩

/-- Claim C3 witness: the amended lock discipline evaluated on the
reachable state `exDb2`, whose single row is processing and leased. -/
theorem reachable_lock_discipline_witness :
    exJob1.locked_by ≠ none ∧ exJob1.lock_until ≠ none :=
  (reachable_lock_discipline exDb2 reach_exDb2 exJob1 (by decide)).1 rfl

/-- Claim C4.  In every database state reachable by enqueue, claim,
outcome resolution, lock refresh and dlq_retry, every job row satisfies
`attempts ≤ max_retries + 1`, and `attempts = 0` iff the row has never
been claimed since it was created (the ghost flag `everClaimed`). -/
theorem reachable_attempts_invariant (db : DB) (h : Reachable db) :
    ∀ j ∈ db.jobs,
      j.attempts ≤ j.max_retries + 1 ∧
      (j.attempts = 0 ↔ j.everClaimed = false) := by
  intro j hj
  obtain ⟨-, hok⟩ := reachable_inv h
  obtain ⟨-, -, -, h4, h5, -, -⟩ := hok j hj
  exact ⟨h4, h5⟩

/-- Claim C4 witness: the attempts invariant evaluated on the reachable
state `exDb3`, whose failed row has been claimed once. -/
theorem reachable_attempts_invariant_witness :
    exFailedRow.attempts ≤ exFailedRow.max_retries + 1 ∧
    (exFailedRow.attempts = 0 ↔ exFailedRow.everClaimed = false) :=
  reachable_attempts_invariant exDb3 reach_exDb3 exFailedRow (by decide)

/-- Claim C5.  The not-found half behaves as claimed (error, no state
change), but the happy path is broken: in the reachable state `exDb5`
produced by the code's own move-to-DLQ (which keeps the dead row in
`jobs`), `dlqRetry "dlq_t2"` inserts a job with the still-present primary
key `t2`, so the transaction aborts with a UNIQUE violation and rolls
back, instead of deleting the DLQ row and creating the fresh pending
job. -/
theorem dlqRetry_pk_collision_bug :
    Reachable exDb5 ∧
    exDb5.dlq = [exDlqEntry] ∧ exDb5.jobs = [exDeadRow] ∧
    dlqRetry exDb5 "dlq_t2" 20 =
      Except.error "UNIQUE constraint failed: jobs.id" ∧
    dlqRetryDb exDb5 "dlq_t2" 20 = exDb5 ∧
    dlqRetry exDb5 "nope" 20 = Except.error "DLQ item not found: nope" ∧
    dlqRetryDb exDb5 "nope" 20 = exDb5 :=
  ⟨reach_exDb5, by decide, by decide, rfl, by decide, rfl, by decide⟩

/-- Claim C7, counterexample.  The claim states `get_int` returns 0
whenever the value cannot be parsed as an integer; in fact
`parseInt('abc', 10)` is NaN (modelled as `none`), not 0. -/
theorem getInt_unparsable_not_zero :
    configGet cfgDB "backoff_base" = some "abc" ∧
    getInt cfgDB "backoff_base" ≠ some 0 ∧
    getInt cfgDB "backoff_base" = none := by
  refine ⟨by decide, ?_, by decide⟩
  intro h
  rw [show getInt cfgDB "backoff_base" = none from by decide] at h
  cases h

/-- Claim C7, amended.  `get_int(key)` parses the stored (or default)
config value with `parseInt(value, 10)`; it returns 0 when the value is
absent (no stored row and no default, so the string "0" is parsed), and
returns NaN (modelled as `none`) when the value exists but cannot be
parsed as an integer. -/
theorem getInt_parse_cases (db : DB) (key : String) :
    (configGet db key = none → getInt db key = some 0) ∧
    (∀ v, configGet db key = some v → getInt db key = parseIntJS v) ∧
    (∀ v, configGet db key = some v → parseIntJS v = none →
      getInt db key = none) := by
  refine ⟨?_, ?_, ?_⟩
  · intro h
    unfold getInt
    rw [h]
    decide
  · intro v h
    unfold getInt
    rw [h]
    rfl
  · intro v h hp
    unfold getInt
    rw [h]
    exact hp

/-- Claim C7 witness: a key with neither stored value nor default parses
as 0. -/
theorem getInt_parse_cases_witness : getInt initDB "zzz" = some 0 :=
  (getInt_parse_cases initDB "zzz").1 (by decide)

/-- Claim C8, counterexample.  The claim states two successive status()
calls with no table mutations return identical results including
active_workers; but status() reads the wall clock, and a worker whose
heartbeat ages past 10 seconds between the two calls changes
active_workers. -/
theorem status_active_workers_time_dependent :
    (status wDB 5).active_workers = 1 ∧
    (status wDB 20).active_workers = 0 ∧
    status wDB 5 ≠ status wDB 20 := by
  refine ⟨by decide, by decide, ?_⟩
  intro h
  have h2 : (status wDB 5).active_workers = (status wDB 20).active_workers := by
    rw [h]
  rw [show (status wDB 5).active_workers = 1 from by decide,
    show (status wDB 20).active_workers = 0 from by decide] at h2
  cases h2

/-- Claim C8, amended.  With no intervening mutations, the per-state
counts and oldest_pending of two status() calls are always identical; the
whole result (including active_workers) is identical whenever no worker's
activity predicate (heartbeat within the last 10 seconds) changes between
the two call instants, and in particular for calls at the same instant. -/
theorem status_deterministic_fields (db : DB) (t1 t2 : Nat) :
    ((status db t1).pending = (status db t2).pending ∧
     (status db t1).processing = (status db t2).processing ∧
     (status db t1).completed = (status db t2).completed ∧
     (status db t1).failed = (status db t2).failed ∧
     (status db t1).dead = (status db t2).dead ∧
     (status db t1).oldest_pending = (status db t2).oldest_pending) ∧
    ((∀ w ∈ db.workers,
        (t1 - 10 ≤ w.heartbeat_at ↔ t2 - 10 ≤ w.heartbeat_at)) →
      status db t1 = status db t2) := by
  constructor
  · exact ⟨rfl, rfl, rfl, rfl, rfl, rfl⟩
  · intro hsame
    unfold status
    have : (db.workers.filter (fun w => decide (t1 - 10 ≤ w.heartbeat_at))) =
        (db.workers.filter (fun w => decide (t2 - 10 ≤ w.heartbeat_at))) := by
      apply List.filter_congr
      intro w hw
      rcases hsame w hw with ⟨h1, h2⟩
      by_cases hc : t1 - 10 ≤ w.heartbeat_at
      · rw [decide_eq_true hc, decide_eq_true (h1 hc)]
      · rw [decide_eq_false hc, decide_eq_false (fun hx => hc (h2 hx))]
    rw [this]

/-- Claim C8 witness: on a database with no workers the full status
result is time-independent. -/
theorem status_deterministic_fields_witness :
    status initDB 0 = status initDB 5 :=
  (status_deterministic_fields initDB 0 5).2 (by intro w hw; cases hw)

/-- Claim C6.  `status()` returns, for each of the five states, the
number of job rows in that state (zero when there are none), the number
of workers whose heartbeat lies within the last 10 seconds of the call
instant, and the smallest `created_at` among pending rows (`none` exactly
when no row is pending). -/
theorem status_correct (db : DB) (now : Nat) :
    (status db now).pending =
      db.jobs.countP (fun j => decide (j.state = JState.pending)) ∧
    (status db now).processing =
      db.jobs.countP (fun j => decide (j.state = JState.processing)) ∧
    (status db now).completed =
      db.jobs.countP (fun j => decide (j.state = JState.completed)) ∧
    (status db now).failed =
      db.jobs.countP (fun j => decide (j.state = JState.failed)) ∧
    (status db now).dead =
      db.jobs.countP (fun j => decide (j.state = JState.dead)) ∧
    (status db now).active_workers =
      db.workers.countP (fun w => decide (now - 10 ≤ w.heartbeat_at)) ∧
    ((status db now).oldest_pending = none ↔
      ∀ j ∈ db.jobs, j.state ≠ JState.pending) ∧
    (∀ t, (status db now).oldest_pending = some t →
      (∃ j ∈ db.jobs, j.state = JState.pending ∧ j.created_at = t) ∧
      ∀ j ∈ db.jobs, j.state = JState.pending → t ≤ j.created_at) := by
  refine ⟨?_, ?_, ?_, ?_, ?_, ?_, ?_, ?_⟩
  · exact (List.countP_eq_length_filter _ _).symm
  · exact (List.countP_eq_length_filter _ _).symm
  · exact (List.countP_eq_length_filter _ _).symm
  · exact (List.countP_eq_length_filter _ _).symm
  · exact (List.countP_eq_length_filter _ _).symm
  · exact (List.countP_eq_length_filter _ _).symm
  · show minCreated db.jobs = none ↔ _
    unfold minCreated
    constructor
    · intro h
      obtain ⟨-, hnil⟩ := foldl_min_none _ _ h
      have hfil := List.eq_nil_of_map_eq_nil hnil
      intro j hj hp
      have : j ∈ db.jobs.filter (fun j => j.state == JState.pending) :=
        List.mem_filter.mpr ⟨hj, by rw [beq_iff_eq]; exact hp⟩
      rw [hfil] at this
      cases this
    · intro h
      have hfil : db.jobs.filter (fun j => j.state == JState.pending) = [] := by
        rw [List.filter_eq_nil_iff]
        intro j hj hc
        exact h j hj (by simpa using hc)
      rw [hfil]
      rfl
  · intro t h
    have h2 := foldl_min_some _ _ _ h
    obtain ⟨hm, hall, -⟩ := h2
    have hmem : t ∈ (db.jobs.filter
        (fun j => j.state == JState.pending)).map (fun j => j.created_at) := by
      rcases hm with hm | hm
      · exact hm
      · cases hm
    obtain ⟨j, hjf, hjt⟩ := List.mem_map.mp hmem
    obtain ⟨hjmem, hjp⟩ := List.mem_filter.mp hjf
    refine ⟨⟨j, hjmem, by simpa using hjp, hjt⟩, ?_⟩
    intro x hx hxp
    exact hall x.created_at (List.mem_map.mpr
      ⟨x, List.mem_filter.mpr ⟨hx, by rw [beq_iff_eq]; exact hxp⟩, rfl⟩)

/-- Claim C1, counterexample.  The claim states that for every database
state the claim operation returns the claimed row.  In the well-formed
state `cexDB`, worker w already holds the processing row `cexB` with
`updated_at = 100`; claiming at instant 50 mutates the eligible pending
row `cexA` (the only row satisfying the selection predicate), but the
re-read (`ORDER BY updated_at DESC LIMIT 1`) returns `cexB`, not the
claimed row. -/
theorem claimJob_reread_returns_other_row :
    selectRunnable cexDB.jobs 50 = some cexA ∧
    (claimJob cexDB "w" 50).1.jobs = [cexB, claimUpdate cexA "w" 50] ∧
    (claimJob cexDB "w" 50).2 = some cexB ∧
    cexB.id = "b" ∧ cexA.id = "a" ∧
    (claimJob cexDB "w" 50).2 ≠ some (claimUpdate cexA "w" 50) := by
  decide

/-- Claim C1, amended.  For every database state with unique job ids and
every worker id, when no row satisfies the selection predicate the claim
operation leaves the database unchanged and returns null; otherwise it
mutates exactly the predicate-satisfying row that is first in
`priority DESC, created_at ASC` order, applying the claim SET clause
(state processing, locked_by worker, lock_until now+60, attempts+1,
updated_at now), leaves every other row and table untouched, and — when
every other processing row locked by this worker has `updated_at < now`,
as in normal operation — returns that freshly claimed row via the
re-read. -/
theorem claimJob_atomic_spec (db : DB) (w : String) (now : Nat)
    (hnd : (db.jobs.map Job.id).Nodup) :
    ((∀ j ∈ db.jobs, runnable j now = false) →
      claimJob db w now = (db, none)) ∧
    (∀ sel, selectRunnable db.jobs now = some sel →
      sel ∈ db.jobs ∧ runnable sel now = true ∧
      (∀ j ∈ db.jobs, runnable j now = true → betterJob j sel = false) ∧
      (claimJob db w now).1.jobs = db.jobs.map (fun j =>
        if j.id == sel.id then claimUpdate j w now else j) ∧
      (∀ j ∈ db.jobs, j.id ≠ sel.id → j ∈ (claimJob db w now).1.jobs) ∧
      claimUpdate sel w now ∈ (claimJob db w now).1.jobs ∧
      (claimJob db w now).1.dlq = db.dlq ∧
      (claimJob db w now).1.config = db.config ∧
      (claimJob db w now).1.workers = db.workers ∧
      ((∀ j ∈ db.jobs, j.locked_by = some w →
          j.state = JState.processing → j.updated_at < now) →
        (claimJob db w now).2 = some (claimUpdate sel w now))) := by
  constructor
  · intro hall
    unfold claimJob
    rw [selectRunnable_eq_none.mpr hall]
  · intro sel hsel
    obtain ⟨hmem, hrun, hopt⟩ := selectRunnable_spec hsel
    have hcj : claimJob db w now =
        ({ db with jobs := db.jobs.map (fun j =>
            if j.id == sel.id then claimUpdate j w now else j) },
          rereadClaimed (db.jobs.map (fun j =>
            if j.id == sel.id then claimUpdate j w now else j)) w) := by
      unfold claimJob
      rw [hsel]
    have hcumem : claimUpdate sel w now ∈ db.jobs.map (fun j =>
        if j.id == sel.id then claimUpdate j w now else j) := by
      refine List.mem_map.mpr ⟨sel, hmem, ?_⟩
      rw [if_pos (by rw [beq_iff_eq])]
    refine ⟨hmem, hrun, hopt, by rw [hcj], ?_, by rw [hcj]; exact hcumem,
      by rw [hcj], by rw [hcj], by rw [hcj], ?_⟩
    · intro j hj hid
      rw [hcj]
      refine List.mem_map.mpr ⟨j, hj, ?_⟩
      rw [if_neg (fun hc => hid (beq_iff_eq.mp hc))]
    · intro hquiet
      rw [hcj]
      show rereadClaimed _ w = _
      unfold rereadClaimed
      apply foldl_maxUpd_eq
      · refine Or.inl (List.mem_filter.mpr ⟨hcumem, ?_⟩)
        simp [claimUpdate]
      · intro y hy
        obtain ⟨hyj2, hycond⟩ := List.mem_filter.mp hy
        obtain ⟨x, hxmem, hxeq⟩ := List.mem_map.mp hyj2
        by_cases hx : x.id == sel.id
        · have hxsel : x = sel := eq_of_mem_of_id_eq hnd hxmem hmem
            (beq_iff_eq.mp hx)
          subst hxsel
          rw [if_pos hx] at hxeq
          exact Or.inl hxeq.symm
        · rw [if_neg hx] at hxeq
          subst hxeq
          simp only [Bool.and_eq_true, beq_iff_eq] at hycond
          right
          show x.updated_at < now
          exact hquiet x hxmem hycond.1 hycond.2
      · intro b hb
        cases hb

/-- Claim C1 witness: on `exDb1` (a single eligible pending row, the
worker holding no other processing row) the claim returns exactly the
freshly claimed row. -/
theorem claimJob_atomic_spec_witness :
    (claimJob exDb1 "w" 0).2 = some (claimUpdate exPendingRow "w" 0) := by
  have h := claimJob_atomic_spec exDb1 "w" 0 (by decide)
  exact (h.2 exPendingRow (by decide)).2.2.2.2.2.2.2.2.2 (by decide)

/-- Claim C2.  Outcome resolution of a claimed job (post-claim attempts
count `job.attempts ≥ 1`): on success the row becomes completed with the
lease and last_error cleared and `updated_at = now`; on failure with
`attempts < max_retries` the row becomes failed with
`run_at = lock_until = now + base ^ attempts`, `locked_by` cleared,
attempts unchanged and `last_error = "exit=<code>: <first 200 chars of
error-or-stderr>"`; on failure with `attempts ≥ max_retries`, in one
transaction a DLQ row `{id="dlq_"+job_id, job_id, payload snapshot of
{id, command, max_retries, priority}, dead_at=now}` is added and the row
becomes dead with the lease cleared and `last_error` stored.  Rows with a
different id are untouched in every case. -/
theorem resolveOutcome_outcome_cases (db : DB) (job : Job) (base : Nat)
    (res : ExecResult) (now : Nat)
    (hatt : 1 ≤ job.attempts)
    (hfresh : ∀ e ∈ db.dlq, e.id ≠ "dlq_" ++ job.id) :
    (res.ok = true →
      (resolveOutcome db job base res now).dlq = db.dlq ∧
      (resolveOutcome db job base res now).jobs.length = db.jobs.length ∧
      (∀ j2 ∈ (resolveOutcome db job base res now).jobs, j2.id = job.id →
        j2.state = JState.completed ∧ j2.locked_by = none ∧
        j2.lock_until = none ∧ j2.last_error = none ∧ j2.updated_at = now) ∧
      (∀ j ∈ db.jobs, j.id ≠ job.id →
        j ∈ (resolveOutcome db job base res now).jobs)) ∧
    (res.ok = false → job.attempts < job.max_retries →
      (resolveOutcome db job base res now).dlq = db.dlq ∧
      (resolveOutcome db job base res now).jobs.length = db.jobs.length ∧
      (∀ j2 ∈ (resolveOutcome db job base res now).jobs, j2.id = job.id →
        j2.state = JState.failed ∧
        j2.run_at = some (now + base ^ job.attempts) ∧
        j2.lock_until = some (now + base ^ job.attempts) ∧
        j2.locked_by = none ∧ j2.attempts = job.attempts ∧
        j2.last_error = some ("exit=" ++ toString res.code ++ ": " ++
          (jsOrStr res.error (jsOrStr res.stderr "")).take 200) ∧
        j2.updated_at = now) ∧
      (∀ j ∈ db.jobs, j.id ≠ job.id →
        j ∈ (resolveOutcome db job base res now).jobs)) ∧
    (res.ok = false → job.max_retries ≤ job.attempts →
      (resolveOutcome db job base res now).dlq.length = db.dlq.length + 1 ∧
      (∀ e ∈ db.dlq, e ∈ (resolveOutcome db job base res now).dlq) ∧
      (∃ e ∈ (resolveOutcome db job base res now).dlq,
        e.id = "dlq_" ++ job.id ∧ e.job_id = job.id ∧
        e.payload.id = job.id ∧ e.payload.command = job.command ∧
        e.payload.max_retries = job.max_retries ∧
        e.payload.priority = job.priority ∧ e.dead_at = now) ∧
      (resolveOutcome db job base res now).jobs.length = db.jobs.length ∧
      (∀ j2 ∈ (resolveOutcome db job base res now).jobs, j2.id = job.id →
        j2.state = JState.dead ∧ j2.locked_by = none ∧
        j2.lock_until = none ∧
        j2.last_error = some ("exit=" ++ toString res.code ++ ": " ++
          (jsOrStr res.error (jsOrStr res.stderr "")).take 200) ∧
        j2.updated_at = now) ∧
      (∀ j ∈ db.jobs, j.id ≠ job.id →
        j ∈ (resolveOutcome db job base res now).jobs)) := by
  have hAN : attemptsNowOf job = job.attempts := attemptsNowOf_eq hatt
  refine ⟨?_, ?_, ?_⟩
  · intro hok1
    have hred : resolveOutcome db job base res now =
        { db with jobs := db.jobs.map (fun j =>
            if j.id == job.id then completeUpdate now j else j) } := by
      unfold resolveOutcome
      rw [if_pos hok1]
    rw [hred]
    refine ⟨rfl, by simp, ?_, ?_⟩
    · intro j2 hj2 hid
      obtain ⟨x, hxmem, hxeq⟩ := List.mem_map.mp hj2
      by_cases hx : x.id == job.id
      · rw [if_pos hx] at hxeq
        rw [← hxeq]
        exact ⟨rfl, rfl, rfl, rfl, rfl⟩
      · rw [if_neg hx] at hxeq
        rw [← hxeq] at hid
        exact absurd (beq_iff_eq.mpr hid) hx
    · intro j hj hid
      refine List.mem_map.mpr ⟨j, hj, ?_⟩
      rw [if_neg (fun hc => hid (beq_iff_eq.mp hc))]
  · intro hok0 hlt
    have hred : resolveOutcome db job base res now =
        { db with jobs := db.jobs.map (fun j =>
            if j.id == job.id then
              retryUpdate job.attempts
                (addSeconds now (backoff base job.attempts)) now
                (lastError res) j
            else j) } := by
      unfold resolveOutcome
      rw [if_neg (by rw [hok0]; exact Bool.false_ne_true)]
      rw [hAN, if_pos hlt]
    rw [hred]
    refine ⟨rfl, by simp, ?_, ?_⟩
    · intro j2 hj2 hid
      obtain ⟨x, hxmem, hxeq⟩ := List.mem_map.mp hj2
      by_cases hx : x.id == job.id
      · rw [if_pos hx] at hxeq
        rw [← hxeq]
        exact ⟨rfl, rfl, rfl, rfl, rfl, rfl, rfl⟩
      · rw [if_neg hx] at hxeq
        rw [← hxeq] at hid
        exact absurd (beq_iff_eq.mpr hid) hx
    · intro j hj hid
      refine List.mem_map.mpr ⟨j, hj, ?_⟩
      rw [if_neg (fun hc => hid (beq_iff_eq.mp hc))]
  · intro hok0 hge
    have hanyf : db.dlq.any (fun e => e.id == "dlq_" ++ job.id) = false := by
      rw [← Bool.not_eq_true]
      intro hc
      obtain ⟨e, hemem, heeq⟩ := List.any_eq_true.mp hc
      exact hfresh e hemem (beq_iff_eq.mp heeq)
    have hred : resolveOutcome db job base res now =
        { db with
            dlq := db.dlq ++ [dlqRowOf job now],
            jobs := db.jobs.map (fun j =>
              if j.id == job.id then deadUpdate now (lastError res) j
              else j) } := by
      unfold resolveOutcome
      rw [if_neg (by rw [hok0]; exact Bool.false_ne_true)]
      rw [hAN, if_neg (by omega)]
      rw [hanyf]
      rfl
    rw [hred]
    refine ⟨by simp, ?_, ?_, by simp, ?_, ?_⟩
    · intro e he
      simp only [List.mem_append]
      exact Or.inl he
    · refine ⟨dlqRowOf job now, ?_, rfl, rfl, rfl, rfl, rfl, rfl, rfl⟩
      exact List.mem_append.mpr (Or.inr (List.mem_singleton.mpr rfl))
    · intro j2 hj2 hid
      obtain ⟨x, hxmem, hxeq⟩ := List.mem_map.mp hj2
      by_cases hx : x.id == job.id
      · rw [if_pos hx] at hxeq
        rw [← hxeq]
        exact ⟨rfl, rfl, rfl, rfl, rfl⟩
      · rw [if_neg hx] at hxeq
        rw [← hxeq] at hid
        exact absurd (beq_iff_eq.mpr hid) hx
    · intro j hj hid
      refine List.mem_map.mpr ⟨j, hj, ?_⟩
      rw [if_neg (fun hc => hid (beq_iff_eq.mp hc))]

/-- Claim C2 witness: the retry branch evaluated on the concrete scenario:
resolving the first failure of `exJob1` in `exDb2` yields the failed row
with `run_at = lock_until = 1 + 2^1 = 3` and the truncated error text. -/
theorem resolveOutcome_outcome_cases_witness :
    exFailedRow.state = JState.failed ∧ exFailedRow.run_at = some 3 ∧
    exFailedRow.lock_until = some 3 ∧ exFailedRow.locked_by = none ∧
    exFailedRow.attempts = exJob1.attempts ∧
    exFailedRow.last_error = some "exit=1: Command failed" ∧
    exFailedRow.updated_at = 1 := by
  have h := resolveOutcome_outcome_cases exDb2 exJob1 2 exRes 1
    (by decide) (by intro e he; cases he)
  have h2 := (h.2.1 rfl (by decide)).2.2.1 exFailedRow (by decide) (by decide)
  exact h2

/-- Claim C6 witness: the counts clause evaluated on the concrete state
`exDb1` with one pending row. -/
theorem status_correct_witness :
    (status exDb1 5).pending =
      exDb1.jobs.countP (fun j => decide (j.state = JState.pending)) :=
  (status_correct exDb1 5).1

/-- Claim C9.  The claim UPDATE, the lock refresher and every
outcome-resolution UPDATE (success, retry, dead) leave the fields id,
command, priority, max_retries and created_at (`frameProj`) of every row
unchanged, row for row; hence after enqueue only the remaining columns
are ever modified. -/
theorem ops_preserve_immutable_fields (db : DB) (w jid : String) (now : Nat)
    (job : Job) (base : Nat) (res : ExecResult) :
    (claimJob db w now).1.jobs.map frameProj = db.jobs.map frameProj ∧
    (refreshLock db jid w now).jobs.map frameProj = db.jobs.map frameProj ∧
    (resolveOutcome db job base res now).jobs.map frameProj =
      db.jobs.map frameProj := by
  refine ⟨?_, ?_, ?_⟩
  · unfold claimJob
    cases hsel : selectRunnable db.jobs now with
    | none => rfl
    | some sel => exact map_frameProj_guarded _ _ _ (fun j => rfl)
  · unfold refreshLock
    exact map_frameProj_guarded _ _ _ (fun j => rfl)
  · unfold resolveOutcome
    by_cases hres : res.ok = true
    · simp only [hres, if_true]
      exact map_frameProj_guarded _ _ _ (fun j => rfl)
    · rw [Bool.not_eq_true] at hres
      simp only [hres, Bool.false_eq_true, if_false]
      by_cases hretry : attemptsNowOf job < job.max_retries
      · rw [if_pos hretry]
        exact map_frameProj_guarded _ _ _ (fun j => rfl)
      · rw [if_neg hretry]
        by_cases hdup : db.dlq.any (fun e => e.id == "dlq_" ++ job.id) = true
        · simp only [hdup, if_true]
        · rw [Bool.not_eq_true] at hdup
          simp only [hdup, Bool.false_eq_true, if_false]
          exact map_frameProj_guarded _ _ _ (fun j => rfl)

/-- Claim C9 witness: the frame equality of the claim update evaluated on
the concrete state `exDb1`. -/
theorem ops_preserve_immutable_fields_witness :
    (claimJob exDb1 "w" 0).1.jobs.map frameProj =
      exDb1.jobs.map frameProj :=
  (ops_preserve_immutable_fields exDb1 "w" "t2" 0 exJob1 2 exRes).1

/-- Claim C10.  When the enqueue input's run_at is absent or falsy (the
empty string), the stored row has `run_at = NULL`, state pending,
attempts 0, and satisfies the claim selection predicate at every instant;
the other tables and pre-existing rows are untouched. -/
theorem enqueue_falsy_run_at (db : DB) (req : EnqueueReq) (genId : String)
    (now : Nat) (db2 : DB) (jid : String)
    (hfalsy : req.run_at = RunAtField.absent ∨
      req.run_at = RunAtField.emptyStr)
    (hok : enqueue db req genId now = Except.ok (db2, jid)) :
    db2.jobs.length = db.jobs.length + 1 ∧
    (∀ j ∈ db.jobs, j ∈ db2.jobs) ∧
    (∀ j ∈ db2.jobs, j ∉ db.jobs →
      j.run_at = none ∧ j.state = JState.pending ∧ j.attempts = 0 ∧
        ∀ m : Nat, runnable j m = true) ∧
    db2.dlq = db.dlq ∧ db2.config = db.config ∧ db2.workers = db.workers := by
  have hnull : storedRunAt req.run_at = none := by
    rcases hfalsy with h | h <;> rw [h] <;> rfl
  unfold enqueue at hok
  by_cases hany : db.jobs.any
      (fun j => j.id == chosenId req.id genId) = true
  · rw [if_pos hany] at hok
    cases hok
  · rw [Bool.not_eq_true] at hany
    simp only [hany, Bool.false_eq_true, if_false] at hok
    injection hok with hpair
    injection hpair with hdb hid
    subst hdb
    refine ⟨by simp, ?_, ?_, rfl, rfl, rfl⟩
    · intro j hj
      simp only [List.mem_append]
      exact Or.inl hj
    · intro j hj hnotold
      rcases List.mem_append.mp hj with hold | hnew
      · exact absurd hold hnotold
      · rcases List.mem_singleton.mp hnew with rfl
        rw [hnull]
        exact ⟨rfl, rfl, rfl, fun m => rfl⟩

/-- Claim C10 witness: enqueueing with run_at given as the empty string
stores a NULL run_at and the row is immediately claimable. -/
theorem enqueue_falsy_run_at_witness :
    c10row.run_at = none ∧ c10row.state = JState.pending ∧
    c10row.attempts = 0 ∧ runnable c10row 99 = true := by
  have h := enqueue_falsy_run_at initDB c10req "gen2" 0 c10db "t1"
    (Or.inr rfl) rfl
  have h2 := h.2.2.1 c10row (by decide) (by decide)
  exact ⟨h2.1, h2.2.1, h2.2.2.1, h2.2.2.2 99⟩

end QueueCTL
